import Mathlib

/-
Verification development for the rubik_analytics corporate-announcements
system.  The ingestion core (codec validation, deduplicating batch writer,
query service with REST fallback, connection supervisor backoff) is present
in the repository only through its documentation, so those components are
modelled from the specification text; the dashboard pagination helper, the
row-expansion toggle and the contact-admin submit handler are embedded
directly from the frontend source.
-/

-- Kernel-reducible string helpers over explicit character lists.

def lowerChars (cs : List Char) : List Char := cs.map Char.toLower

def lowerStr (s : String) : List Char := lowerChars s.data

def trimChars (cs : List Char) : List Char :=
  ((cs.dropWhile Char.isWhitespace).reverse.dropWhile Char.isWhitespace).reverse

def trimStr (s : String) : String := ⟨trimChars s.data⟩

-- Lexicographic comparison of character lists by code point.

def lexLe : List Char → List Char → Bool
  | [], _ => true
  | _ :: _, [] => false
  | a :: as, b :: bs =>
    if a.toNat = b.toNat then lexLe as bs else decide (a.toNat < b.toNat)

/-- Modelled from the spec: a value counts as blank when it is one of the
placeholder forms, compared case-insensitively.  The codec source file
(announcements_websocket_worker.py) is absent from the repository snapshot. -/
def isBlankValue (s : String) : Bool :=
  lowerStr s == [] || lowerStr s == ['-'] ||
  lowerStr s == ['n', 'u', 'l', 'l'] || lowerStr s == ['n', 'o', 'n', 'e']

def isBlankField : Option String → Bool
  | none => true
  | some s => isBlankValue s

/-- Modelled from the spec: the decoded-but-not-yet-validated message
envelope produced by the absent WebSocket worker source. -/
structure RawMessage where
  id : Option String
  symbolPrimary : Option String
  symbolNSE : Option String
  symbolBSE : Option String
  exchange : Option String
  headline : Option String
  description : Option String
  category : Option String
  eventTime : Option Nat
  attachmentId : Option String
  rawPayload : String
deriving DecidableEq

/-- Modelled from the spec: the canonical Announcement record of the data
model; the persistence source (announcements_db_writer.py) is absent. -/
structure Announcement where
  id : String
  symbolPrimary : Option String
  symbolNSE : Option String
  symbolBSE : Option String
  exchange : Option String
  headline : Option String
  description : Option String
  category : Option String
  eventTime : Option Nat
  receivedTime : Nat
  attachmentId : Option String
  rawPayload : String
deriving DecidableEq

inductive ValidationError where
  | missingId
  | blankContent
deriving DecidableEq

/-- Modelled from the spec: codec validation rejects a message whose id is
missing, or whose headline and description are both blank; the codec source
is absent from the repository snapshot. -/
def validateMessage (m : RawMessage) (now : Nat) : Except ValidationError Announcement :=
  match m.id with
  | none => .error .missingId
  | some i =>
    if isBlankField m.headline && isBlankField m.description then
      .error .blankContent
    else
      .ok { id := i, symbolPrimary := m.symbolPrimary, symbolNSE := m.symbolNSE,
            symbolBSE := m.symbolBSE, exchange := m.exchange, headline := m.headline,
            description := m.description, category := m.category, eventTime := m.eventTime,
            receivedTime := now, attachmentId := m.attachmentId, rawPayload := m.rawPayload }

abbrev Store := List Announcement

def idExists (st : Store) (i : String) : Bool := st.any fun r => r.id == i

def countId (st : Store) (i : String) : Nat := (st.filter fun r => r.id == i).length

/-- Modelled from the spec: the dedup-and-insert routine of the absent batch
writer source; a write whose id already exists among stored primary keys is
a skip, never an update. -/
def insertIfAbsent (st : Store) (a : Announcement) : Store :=
  if idExists st a.id then st else st ++ [a]

/-- Modelled from the spec: the persistence path of the absent batch writer
source applied to one queued message — validate, then dedup-insert. -/
def ingestMessage (st : Store) (m : RawMessage) (now : Nat) : Store :=
  match validateMessage m now with
  | .error _ => st
  | .ok a => insertIfAbsent st a

def blankRow (r : Announcement) : Bool := isBlankField r.headline && isBlankField r.description

-- Case-insensitive substring search used by the read path.

def leadsWith : List Char → List Char → Bool
  | [], _ => true
  | _ :: _, [] => false
  | a :: as, b :: bs => a == b && leadsWith as bs

def containsSeq (needle : List Char) : List Char → Bool
  | [] => needle.isEmpty
  | c :: cs => leadsWith needle (c :: cs) || containsSeq needle cs

def containsCI (hay needle : String) : Bool :=
  containsSeq (lowerStr needle) (lowerStr hay)

def optContainsCI (hay : Option String) (needle : String) : Bool :=
  match hay with
  | none => false
  | some h => containsCI h needle

/-- Modelled from the spec: the search predicate of the absent query service
source — case-insensitive substring match against symbol, company name and
headline; the company name comes from a read-time join, abstracted here as a
lookup function. -/
def matchesSearch (companyOf : Announcement → Option String) (r : Announcement) (q : String) : Bool :=
  optContainsCI r.symbolPrimary q || optContainsCI r.symbolNSE q || optContainsCI r.symbolBSE q ||
  optContainsCI (companyOf r) q || optContainsCI r.headline q

/-- Modelled from the spec: result ordering of the absent query service —
receivedTime descending, ties broken by id. -/
def rowLE (a b : Announcement) : Prop :=
  b.receivedTime < a.receivedTime ∨
    (a.receivedTime = b.receivedTime ∧ lexLe a.id.data b.id.data = true)

instance : DecidableRel rowLE := fun a b => by
  unfold rowLE
  exact inferInstance

def insertOrdered (a : Announcement) : List Announcement → List Announcement
  | [] => [a]
  | b :: bs => if rowLE a b then a :: b :: bs else b :: insertOrdered a bs

def sortRows (l : List Announcement) : List Announcement := l.foldr insertOrdered []

structure ReadResult where
  rows : List Announcement
  total : Nat
deriving DecidableEq

/-- Modelled from the spec: the read path of the absent query service source
(announcements.py) — filter by the optional search term, order by
receivedTime descending with ties broken by id, return the requested page
and the full matching count. -/
def readAnnouncements (st : Store) (companyOf : Announcement → Option String)
    (search : Option String) (limit offset : Nat) : ReadResult :=
  let matching := match search with
    | none => st
    | some q => st.filter fun r => matchesSearch companyOf r q
  let sorted := sortRows matching
  ⟨(sorted.drop offset).take limit, matching.length⟩

structure AnnouncementsResponse where
  announcements : List Announcement
  total : Nat
  limit : Nat
  offset : Nat
deriving DecidableEq

def normalizeLimit : Option Nat → Nat
  | none => 100
  | some l => min l 1000

def normalizeOffset : Option Nat → Nat
  | none => 0
  | some o => o

/-- Modelled from the spec: the GET announcements endpoint of the absent
REST API source — limit defaults to 100 and is capped at 1000, offset
defaults to 0, and the response carries the page plus echo fields. -/
def getAnnouncementsEndpoint (st : Store) (companyOf : Announcement → Option String)
    (limitParam offsetParam : Option Nat) (search : Option String) : AnnouncementsResponse :=
  let l := normalizeLimit limitParam
  let o := normalizeOffset offsetParam
  let r := readAnnouncements st companyOf search l o
  ⟨r.rows, r.total, l, o⟩

-- Fallback reconciliation path.

inductive FetchOutcome where
  | foundData
  | noData
deriving DecidableEq

/-- Modelled from the spec: one FetchMarker per symbol, recording that a
fallback fetch was attempted and its outcome; the fallback source is absent
from the repository snapshot. -/
structure FetchMarker where
  symbol : String
  outcome : FetchOutcome
deriving DecidableEq

def hasMarker (ms : List FetchMarker) (sym : String) : Bool := ms.any fun m => m.symbol == sym

def symbolMatches (r : Announcement) (sym : String) : Bool :=
  r.symbolPrimary == some sym || r.symbolNSE == some sym || r.symbolBSE == some sym

def symbolRows (st : Store) (sym : String) : List Announcement :=
  st.filter fun r => symbolMatches r sym

/-- Outcome of the single bounded external historical fetch: either the
decoded messages of the vendor response, or a failed call. -/
inductive FetchResult where
  | ok (msgs : List RawMessage)
  | failed
deriving DecidableEq

structure ServiceState where
  store : Store
  markers : List FetchMarker
deriving DecidableEq

structure FallbackOutcome where
  rows : List Announcement
  state : ServiceState
  fetched : Bool
deriving DecidableEq

/-- Modelled from the spec: fallback results are persisted through the same
dedup and validation path as the batch writer. -/
def persistBatch (st : Store) (msgs : List RawMessage) (now : Nat) : Store :=
  msgs.foldl (fun s m => ingestMessage s m now) st

/-- Modelled from the spec: the fallback path of the absent query service
source — triggered by a symbol filter with zero local rows; skipped whenever
a FetchMarker exists, regardless of the recorded outcome; on a successful
external call the results are persisted and a marker is recorded; on a
failed call nothing is written and the caller gets an empty result. -/
def fallbackQuery (s : ServiceState) (sym : String) (ext : FetchResult) (now : Nat) :
    FallbackOutcome :=
  let localRows := symbolRows s.store sym
  if localRows.length ≠ 0 then
    ⟨localRows, s, false⟩
  else if hasMarker s.markers sym then
    ⟨[], s, false⟩
  else
    match ext with
    | .failed => ⟨[], s, true⟩
    | .ok msgs =>
      let store2 := persistBatch s.store msgs now
      let fresh := symbolRows store2 sym
      let outcome := if fresh.length ≠ 0 then FetchOutcome.foundData else FetchOutcome.noData
      ⟨fresh, ⟨store2, s.markers ++ [⟨sym, outcome⟩]⟩, true⟩

/-- Runs a sequence of queries through the fallback path, threading the
service state and counting how many performed an external fetch call. -/
def runFallbackQueries (s : ServiceState) (qs : List (String × FetchResult × Nat)) :
    ServiceState × Nat :=
  qs.foldl
    (fun acc q =>
      ((fallbackQuery acc.1 q.1 q.2.1 q.2.2).state,
        acc.2 + (if (fallbackQuery acc.1 q.1 q.2.1 q.2.2).fetched then 1 else 0)))
    (s, 0)

-- Connection supervisor backoff.

/-- Modelled from the spec: the retry interval of the absent connection
supervisor source after n consecutive transient failures — exponential
growth capped at a bounded maximum interval. -/
def transientRetryInterval (base maxInterval n : Nat) : Nat :=
  min (base * 2 ^ n) maxInterval

/-- Modelled from the spec: the much longer retry interval used by the
absent connection supervisor source after a detected auth failure, chosen as
a definite representative strictly above the transient ceiling. -/
def authRetryInterval (maxInterval : Nat) : Nat := 10 * maxInterval

-- Dashboard pagination helper, embedded from the frontend source
-- (getPageNumbers in the dashboard page component).

inductive PageEntry where
  | num : Nat → PageEntry
  | dots : PageEntry
deriving DecidableEq

def getPageNumbers (page totalPages : Nat) : List PageEntry :=
  if totalPages ≤ 5 then
    (List.range totalPages).map fun i => PageEntry.num (i + 1)
  else if page ≤ 3 then
    [.num 1, .num 2, .num 3, .num 4, .dots, .num totalPages]
  else if totalPages - 2 ≤ page then
    [.num 1, .dots, .num (totalPages - 3), .num (totalPages - 2),
     .num (totalPages - 1), .num totalPages]
  else
    [.num 1, .dots, .num (page - 1), .num page, .num (page + 1), .dots, .num totalPages]

def pageNums (l : List PageEntry) : List Nat :=
  l.filterMap fun e =>
    match e with
    | .num n => some n
    | .dots => none

-- Row-expansion toggle, embedded from the frontend source
-- (toggleRowExpansion in the dashboard page component).

def toggleRowExpansion (s : Finset String) (id : String) : Finset String :=
  if id ∈ s then s.erase id else insert id s

-- Contact-admin request form, embedded from the frontend source
-- (handleSubmit in the ContactAdminModal component).

structure ContactFormData where
  name : String
  email : String
  mobile : String
  company : String
  reason : String
deriving DecidableEq

structure AccessRequestPayload where
  name : String
  email : Option String
  mobile : String
  company : Option String
  reason : String
deriving DecidableEq

def okEmailChar (c : Char) : Bool := !c.isWhitespace && c != '@'

def emailRegexAccepts (s : String) : Bool :=
  let cs := s.data
  let a := cs.takeWhile okEmailChar
  match cs.drop a.length with
  | '@' :: r =>
    !a.isEmpty && r.all okEmailChar &&
      (List.range r.length).any fun i =>
        r.getD i '@' == '.' && decide (1 ≤ i) && decide (i + 2 ≤ r.length)
  | _ => false

def handleSubmit (loading : Bool) (fd : ContactFormData) : Option AccessRequestPayload :=
  if loading then none
  else if trimStr fd.name = "" then none
  else if trimStr fd.mobile = "" then none
  else if trimStr fd.reason = "" then none
  else if trimStr fd.email ≠ "" && !emailRegexAccepts (trimStr fd.email) then none
  else
    some { name := trimStr fd.name,
           email := if trimStr fd.email ≠ "" then some (trimStr fd.email) else none,
           mobile := trimStr fd.mobile,
           company := if trimStr fd.company ≠ "" then some (trimStr fd.company) else none,
           reason := trimStr fd.reason }

-- Concrete sample values used by the witness theorems.

def sampleAnn : Announcement :=
  ⟨"A1", some "RELI", some "RELI", none, some "NSE", some "Board Meeting", none,
   some "Board Meeting", none, 5, none, "raw"⟩

def sampleBadMsg : RawMessage :=
  ⟨none, none, none, none, none, some "-", some "None", none, none, none, "raw"⟩

def sampleGoodMsg : RawMessage :=
  ⟨some "A2", some "XYZ", some "XYZ", none, some "NSE", some "Results", none,
   some "Results", none, none, "raw2"⟩

def sampleForm : ContactFormData :=
  ⟨"Jane", "a@b.cd", "9999", "", "need data"⟩

def samplePayload : AccessRequestPayload :=
  ⟨"Jane", some "a@b.cd", "9999", none, "need data"⟩

-- Helper lemmas about the store.

theorem countId_append (s t : Store) (i : String) :
    countId (s ++ t) i = countId s i + countId t i := by
  simp [countId, List.filter_append]

theorem countId_singleton (a : Announcement) (i : String) :
    countId [a] i = if a.id = i then 1 else 0 := by
  by_cases h : a.id = i <;> simp [countId, h]

theorem idExists_eq_false_iff (st : Store) (i : String) :
    idExists st i = false ↔ countId st i = 0 := by
  induction st with
  | nil => simp [idExists, countId]
  | cons a st ih =>
    by_cases h : a.id = i
    · simp [idExists, countId, List.any_cons, List.filter_cons, h]
    · simp [idExists, countId, List.any_cons, List.filter_cons, h]

theorem idExists_true_le_countId (st : Store) (i : String) (h : idExists st i = true) :
    1 ≤ countId st i := by
  rcases Nat.eq_zero_or_pos (countId st i) with h0 | h0
  · rw [(idExists_eq_false_iff st i).mpr h0] at h
    cases h
  · exact h0

/-- Claim C1: a write whose id already exists among stored primary keys is a
skip, never an update; the at-most-one-row-per-id invariant is preserved by
every write; and ingesting the same record twice leaves exactly one stored
row for that id. -/
theorem dedup_single_row_per_id (st : Store) (a : Announcement) :
    (idExists st a.id = true → insertIfAbsent st a = st) ∧
    (∀ i, countId st i ≤ 1 → countId (insertIfAbsent st a) i ≤ 1) ∧
    (countId st a.id ≤ 1 →
      countId (insertIfAbsent (insertIfAbsent st a) a) a.id = 1) := by
  refine ⟨?_, ?_, ?_⟩
  · intro h
    simp [insertIfAbsent, h]
  · intro i hle
    by_cases h : idExists st a.id = true
    · simp [insertIfAbsent, h]
      exact hle
    · have hf : idExists st a.id = false := by
        cases hb : idExists st a.id
        · rfl
        · exact absurd hb h
      rw [insertIfAbsent, if_neg (by simp [hf]), countId_append, countId_singleton]
      by_cases hai : a.id = i
      · have h0 : countId st i = 0 := hai ▸ (idExists_eq_false_iff st a.id).mp hf
        simp [hai, h0]
      · simp [hai]
        exact hle
  · intro hle
    by_cases h : idExists st a.id = true
    · have e1 : insertIfAbsent st a = st := by simp [insertIfAbsent, h]
      rw [e1, e1]
      exact le_antisymm hle (idExists_true_le_countId st a.id h)
    · have hf : idExists st a.id = false := by
        cases hb : idExists st a.id
        · rfl
        · exact absurd hb h
      have h0 : countId st a.id = 0 := (idExists_eq_false_iff st a.id).mp hf
      have e1 : insertIfAbsent st a = st ++ [a] := by
        rw [insertIfAbsent, if_neg (by simp [hf])]
      have h1 : countId (st ++ [a]) a.id = 1 := by
        rw [countId_append, h0, countId_singleton]
        simp
      have h2 : idExists (st ++ [a]) a.id = true := by
        cases hb : idExists (st ++ [a]) a.id
        · rw [(idExists_eq_false_iff _ _).mp hb] at h1
          cases h1
        · rfl
      have e2 : insertIfAbsent (st ++ [a]) a = st ++ [a] := by
        simp [insertIfAbsent, h2]
      rw [e1, e2, h1]

theorem dedup_single_row_per_id_witness :
    (insertIfAbsent [sampleAnn] sampleAnn = [sampleAnn]) ∧
    (countId (insertIfAbsent [] sampleAnn) "A1" ≤ 1) ∧
    (countId (insertIfAbsent (insertIfAbsent [] sampleAnn) sampleAnn) sampleAnn.id = 1) :=
  ⟨(dedup_single_row_per_id [sampleAnn] sampleAnn).1 (by decide),
   (dedup_single_row_per_id [] sampleAnn).2.1 "A1" (by decide),
   (dedup_single_row_per_id [] sampleAnn).2.2 (by decide)⟩

theorem validateMessage_ok_not_blank (m : RawMessage) (now : Nat) (a : Announcement)
    (h : validateMessage m now = Except.ok a) : blankRow a = false := by
  unfold validateMessage at h
  split at h
  · simp at h
  · split at h
    · simp at h
    next hb =>
      have h2 := Except.ok.inj h
      rw [← h2]
      simp only [blankRow]
      simpa using hb

/-- Claim C2: the codec and persistence path rejects a message whose id is
missing or whose headline and description are both blank — for the four
placeholder variants, case-insensitively — and persists nothing for it, so a
store free of blank rows stays free of blank rows under ingestion. -/
theorem codec_rejects_blank (m : RawMessage) (st : Store) (now : Nat) :
    ((m.id = none ∨ (isBlankField m.headline = true ∧ isBlankField m.description = true)) →
      (∃ e, validateMessage m now = Except.error e) ∧ ingestMessage st m now = st) ∧
    ((∀ r ∈ st, blankRow r = false) → ∀ r ∈ ingestMessage st m now, blankRow r = false) ∧
    isBlankValue "" = true ∧ isBlankValue "-" = true ∧ isBlankValue "null" = true ∧
    isBlankValue "None" = true ∧ isBlankValue "NULL" = true ∧ isBlankValue "nOnE" = true := by
  refine ⟨?_, ?_, by decide, by decide, by decide, by decide, by decide, by decide⟩
  · intro h
    cases hm : m.id with
    | none =>
      exact ⟨⟨.missingId, by simp [validateMessage, hm]⟩, by simp [ingestMessage, validateMessage, hm]⟩
    | some i =>
      rcases h with h | ⟨hh, hd⟩
      · rw [hm] at h
        cases h
      · refine ⟨⟨.blankContent, ?_⟩, ?_⟩
        · simp [validateMessage, hm, hh, hd]
        · simp [ingestMessage, validateMessage, hm, hh, hd]
  · intro hst r hr
    cases hv : validateMessage m now with
    | error e =>
      simp only [ingestMessage, hv] at hr
      exact hst r hr
    | ok a =>
      simp only [ingestMessage, hv] at hr
      by_cases he : idExists st a.id = true
      · unfold insertIfAbsent at hr
        rw [if_pos he] at hr
        exact hst r hr
      · unfold insertIfAbsent at hr
        rw [if_neg he] at hr
        rcases List.mem_append.mp hr with hr' | hr'
        · exact hst r hr'
        · rw [List.mem_singleton.mp hr']
          exact validateMessage_ok_not_blank m now a hv

theorem codec_rejects_blank_witness :
    ((∃ e, validateMessage sampleBadMsg 0 = Except.error e) ∧
      ingestMessage [] sampleBadMsg 0 = []) ∧
    (∀ r ∈ ingestMessage [] sampleBadMsg 0, blankRow r = false) :=
  ⟨(codec_rejects_blank sampleBadMsg [] 0).1 (Or.inl rfl),
   (codec_rejects_blank sampleBadMsg [] 0).2.1 (by simp)⟩

/-- Claim C7: the transient-failure retry interval of the connection
supervisor is non-decreasing in the number of consecutive failures and
bounded above by the fixed maximum interval, and the interval used after a
detected auth failure is strictly larger than that ceiling. -/
theorem backoff_monotone_bounded (base maxInterval n : Nat) (hM : 0 < maxInterval) :
    transientRetryInterval base maxInterval n ≤ transientRetryInterval base maxInterval (n + 1) ∧
    transientRetryInterval base maxInterval n ≤ maxInterval ∧
    maxInterval < authRetryInterval maxInterval := by
  refine ⟨?_, ?_, ?_⟩
  · have hexp : base * 2 ^ n ≤ base * 2 ^ (n + 1) :=
      Nat.mul_le_mul_left base (Nat.pow_le_pow_right (by omega) (by omega))
    exact min_le_min hexp (le_refl maxInterval)
  · exact min_le_right _ _
  · unfold authRetryInterval
    omega

theorem backoff_monotone_bounded_witness :
    0 < 30 ∧
    (transientRetryInterval 2 30 3 ≤ transientRetryInterval 2 30 4 ∧
      transientRetryInterval 2 30 3 ≤ 30 ∧
      30 < authRetryInterval 30) :=
  ⟨by decide, backoff_monotone_bounded 2 30 3 (by decide)⟩

/-- Claim C9: the row-expansion update flips membership of exactly the given
id, leaves every other id unchanged, and applied twice returns the original
set of expanded row ids. -/
theorem toggleRowExpansion_involutive (s : Finset String) (id : String) :
    (id ∈ toggleRowExpansion s id ↔ id ∉ s) ∧
    (∀ j, j ≠ id → (j ∈ toggleRowExpansion s id ↔ j ∈ s)) ∧
    toggleRowExpansion (toggleRowExpansion s id) id = s := by
  by_cases h : id ∈ s
  · refine ⟨by simp [toggleRowExpansion, h], ?_, ?_⟩
    · intro j hj
      simp [toggleRowExpansion, h, Finset.mem_erase, hj]
    · have h2 : id ∉ s.erase id := Finset.not_mem_erase id s
      simp [toggleRowExpansion, h, h2, Finset.insert_erase h]
  · refine ⟨by simp [toggleRowExpansion, h], ?_, ?_⟩
    · intro j hj
      simp [toggleRowExpansion, h, Finset.mem_insert, hj]
    · have h2 : id ∈ insert id s := Finset.mem_insert_self id s
      simp [toggleRowExpansion, h, h2, Finset.erase_insert h]

theorem toggleRowExpansion_involutive_witness :
    (("b" ∈ toggleRowExpansion {"a"} "b") ↔ ("b" : String) ∉ ({"a"} : Finset String)) ∧
    (("c" : String) ≠ "b" ∧
      (("c" ∈ toggleRowExpansion {"a"} "b") ↔ ("c" : String) ∈ ({"a"} : Finset String))) ∧
    toggleRowExpansion (toggleRowExpansion {"a"} "b") "b" = {"a"} :=
  ⟨(toggleRowExpansion_involutive {"a"} "b").1,
   ⟨by decide, (toggleRowExpansion_involutive {"a"} "b").2.1 "c" (by decide)⟩,
   (toggleRowExpansion_involutive {"a"} "b").2.2⟩

-- Helper lemmas about the fallback path.

theorem fallbackQuery_skip (s : ServiceState) (sym : String) (ext : FetchResult) (now : Nat)
    (h : hasMarker s.markers sym = true) :
    (fallbackQuery s sym ext now).state = s ∧ (fallbackQuery s sym ext now).fetched = false := by
  unfold fallbackQuery
  by_cases hl : (symbolRows s.store sym).length ≠ 0
  · rw [if_pos hl]
    exact ⟨rfl, rfl⟩
  · rw [if_neg hl, if_pos h]
    exact ⟨rfl, rfl⟩

theorem runFallbackQueries_marker_fixed (sym : String) (qs : List (FetchResult × Nat))
    (s : ServiceState) (h : hasMarker s.markers sym = true) :
    runFallbackQueries s (qs.map fun p => (sym, p)) = (s, 0) := by
  induction qs with
  | nil => rfl
  | cons q qs ih =>
    rcases fallbackQuery_skip s sym q.1 q.2 h with ⟨hs, hf⟩
    unfold runFallbackQueries at ih ⊢
    simp only [List.map_cons, List.foldl_cons, hs, hf]
    simpa using ih

/-- Claim C3: for a symbol with zero locally stored rows and no FetchMarker,
the first fallback-triggering query performs the external fetch and records
a FetchMarker, and every later fallback-triggering query for that symbol
skips the external call — zero fetches over any later query sequence —
regardless of the recorded outcome. -/
theorem fallback_single_attempt (s : ServiceState) (sym : String) (msgs : List RawMessage)
    (now : Nat) (qs : List (FetchResult × Nat))
    (hlocal : symbolRows s.store sym = [])
    (hmark : hasMarker s.markers sym = false) :
    (fallbackQuery s sym (.ok msgs) now).fetched = true ∧
    hasMarker (fallbackQuery s sym (.ok msgs) now).state.markers sym = true ∧
    (runFallbackQueries (fallbackQuery s sym (.ok msgs) now).state
        (qs.map fun p => (sym, p))).2 = 0 := by
  have h1 : (fallbackQuery s sym (.ok msgs) now).fetched = true := by
    unfold fallbackQuery
    rw [if_neg (by simp [hlocal]), if_neg (by simp [hmark])]
  have h2 : hasMarker (fallbackQuery s sym (.ok msgs) now).state.markers sym = true := by
    unfold fallbackQuery
    rw [if_neg (by simp [hlocal]), if_neg (by simp [hmark])]
    simp [hasMarker, List.any_append]
  exact ⟨h1, h2, by rw [runFallbackQueries_marker_fixed sym qs _ h2]⟩

theorem fallback_single_attempt_witness :
    (symbolRows (⟨[], []⟩ : ServiceState).store "XYZ" = [] ∧
      hasMarker (⟨[], []⟩ : ServiceState).markers "XYZ" = false) ∧
    ((fallbackQuery ⟨[], []⟩ "XYZ" (.ok [sampleGoodMsg]) 7).fetched = true ∧
      hasMarker (fallbackQuery ⟨[], []⟩ "XYZ" (.ok [sampleGoodMsg]) 7).state.markers "XYZ" = true ∧
      (runFallbackQueries (fallbackQuery ⟨[], []⟩ "XYZ" (.ok [sampleGoodMsg]) 7).state
          ([(FetchResult.ok [sampleGoodMsg], 9)].map fun p => ("XYZ", p))).2 = 0) :=
  ⟨⟨by decide, by decide⟩,
   fallback_single_attempt ⟨[], []⟩ "XYZ" [sampleGoodMsg] 7 [(FetchResult.ok [sampleGoodMsg], 9)]
     (by decide) (by decide)⟩

/-- Claim C6: when the external backfill call fails, the caller gets an
empty result and the service state — markers included — is unchanged, so a
future fallback-triggering query for the same symbol performs the external
fetch again. -/
theorem fallback_error_no_marker (s : ServiceState) (sym : String) (now now2 : Nat)
    (msgs : List RawMessage)
    (hlocal : symbolRows s.store sym = [])
    (hmark : hasMarker s.markers sym = false) :
    fallbackQuery s sym .failed now = ⟨[], s, true⟩ ∧
    (fallbackQuery (fallbackQuery s sym .failed now).state sym (.ok msgs) now2).fetched = true := by
  have h1 : fallbackQuery s sym .failed now = ⟨[], s, true⟩ := by
    unfold fallbackQuery
    rw [if_neg (by simp [hlocal]), if_neg (by simp [hmark])]
  refine ⟨h1, ?_⟩
  rw [h1]
  unfold fallbackQuery
  rw [if_neg (by simp [hlocal]), if_neg (by simp [hmark])]

theorem fallback_error_no_marker_witness :
    fallbackQuery ⟨[], []⟩ "XYZ" .failed 3 = ⟨[], ⟨[], []⟩, true⟩ ∧
    (fallbackQuery (fallbackQuery ⟨[], []⟩ "XYZ" .failed 3).state "XYZ"
        (.ok [sampleGoodMsg]) 4).fetched = true :=
  fallback_error_no_marker ⟨[], []⟩ "XYZ" 3 4 [sampleGoodMsg] (by decide) (by decide)

/-- Claim C5: the GET announcements endpoint applies limit default 100 and a
maximum of 1000, applies offset default 0, and returns exactly the
announcements page plus the echo fields total, limit and offset. -/
theorem endpoint_limit_offset_echo (st : Store) (companyOf : Announcement → Option String)
    (limitParam offsetParam : Option Nat) (search : Option String) :
    (getAnnouncementsEndpoint st companyOf none offsetParam search).limit = 100 ∧
    (getAnnouncementsEndpoint st companyOf limitParam none search).offset = 0 ∧
    (getAnnouncementsEndpoint st companyOf limitParam offsetParam search).limit ≤ 1000 ∧
    (∀ l, limitParam = some l → l ≤ 1000 →
      (getAnnouncementsEndpoint st companyOf limitParam offsetParam search).limit = l) ∧
    (∀ o, offsetParam = some o →
      (getAnnouncementsEndpoint st companyOf limitParam offsetParam search).offset = o) ∧
    (getAnnouncementsEndpoint st companyOf limitParam offsetParam search).announcements =
      (readAnnouncements st companyOf search (normalizeLimit limitParam)
        (normalizeOffset offsetParam)).rows ∧
    (getAnnouncementsEndpoint st companyOf limitParam offsetParam search).total =
      (readAnnouncements st companyOf search (normalizeLimit limitParam)
        (normalizeOffset offsetParam)).total ∧
    (getAnnouncementsEndpoint st companyOf limitParam offsetParam search).announcements.length ≤
      normalizeLimit limitParam := by
  refine ⟨rfl, rfl, ?_, ?_, ?_, rfl, rfl, ?_⟩
  · show normalizeLimit limitParam ≤ 1000
    cases limitParam with
    | none => simp [normalizeLimit]
    | some l =>
      simp only [normalizeLimit]
      omega
  · intro l hl hle
    subst hl
    show normalizeLimit (some l) = l
    simp only [normalizeLimit]
    omega
  · intro o ho
    subst ho
    rfl
  · simp only [getAnnouncementsEndpoint, readAnnouncements]
    exact List.length_take_le _ _

theorem endpoint_limit_offset_echo_witness :
    (getAnnouncementsEndpoint [] (fun _ => none) none (some 3) none).limit = 100 ∧
    (getAnnouncementsEndpoint [] (fun _ => none) (some 500) none none).offset = 0 ∧
    (getAnnouncementsEndpoint [] (fun _ => none) (some 500) (some 3) none).limit ≤ 1000 ∧
    (getAnnouncementsEndpoint [] (fun _ => none) (some 500) (some 3) none).limit = 500 ∧
    (getAnnouncementsEndpoint [] (fun _ => none) (some 500) (some 3) none).offset = 3 ∧
    (getAnnouncementsEndpoint [] (fun _ => none) (some 500) (some 3) none).announcements =
      (readAnnouncements [] (fun _ => none) none (normalizeLimit (some 500))
        (normalizeOffset (some 3))).rows ∧
    (getAnnouncementsEndpoint [] (fun _ => none) (some 500) (some 3) none).announcements.length ≤
      normalizeLimit (some 500) :=
  ⟨(endpoint_limit_offset_echo [] (fun _ => none) (some 500) (some 3) none).1,
   (endpoint_limit_offset_echo [] (fun _ => none) (some 500) (some 3) none).2.1,
   (endpoint_limit_offset_echo [] (fun _ => none) (some 500) (some 3) none).2.2.1,
   (endpoint_limit_offset_echo [] (fun _ => none) (some 500) (some 3) none).2.2.2.1 500 rfl
     (by decide),
   (endpoint_limit_offset_echo [] (fun _ => none) (some 500) (some 3) none).2.2.2.2.1 3 rfl,
   (endpoint_limit_offset_echo [] (fun _ => none) (some 500) (some 3) none).2.2.2.2.2.1,
   (endpoint_limit_offset_echo [] (fun _ => none) (some 500) (some 3) none).2.2.2.2.2.2.2⟩

/-- Claim C8: for 1 <= page <= totalPages the pagination helper returns
numeric entries that are strictly increasing, starting at 1, ending at
totalPages, always containing the current page; and for totalPages <= 5 the
list is exactly 1..totalPages with no ellipsis entries. -/
theorem pagination_window (page totalPages : Nat) (h1 : 1 ≤ page) (h2 : page ≤ totalPages) :
    List.Pairwise (· < ·) (pageNums (getPageNumbers page totalPages)) ∧
    (getPageNumbers page totalPages).head? = some (PageEntry.num 1) ∧
    (pageNums (getPageNumbers page totalPages)).getLast? = some totalPages ∧
    PageEntry.num page ∈ getPageNumbers page totalPages ∧
    (totalPages ≤ 5 →
      pageNums (getPageNumbers page totalPages) = List.range' 1 totalPages ∧
      PageEntry.dots ∉ getPageNumbers page totalPages) := by
  by_cases h5 : totalPages ≤ 5
  · have hlb : 1 ≤ totalPages := le_trans h1 h2
    interval_cases totalPages <;> interval_cases page <;> decide
  · have h6 : 6 ≤ totalPages := by omega
    simp only [getPageNumbers, if_neg h5]
    by_cases hp3 : page ≤ 3
    · simp only [if_pos hp3]
      refine ⟨?_, rfl, ?_, ?_, fun hc => absurd hc h5⟩
      · simp only [pageNums, List.filterMap_cons, List.filterMap_nil]
        simp [List.pairwise_cons]
        omega
      · simp [pageNums]
      · have hp : page = 1 ∨ page = 2 ∨ page = 3 := by omega
        rcases hp with rfl | rfl | rfl <;> simp
    · by_cases hne : totalPages - 2 ≤ page
      · simp only [if_neg hp3, if_pos hne]
        refine ⟨?_, rfl, ?_, ?_, fun hc => absurd hc h5⟩
        · simp only [pageNums, List.filterMap_cons, List.filterMap_nil]
          simp [List.pairwise_cons]
          omega
        · simp [pageNums]
        · have hp : page = totalPages - 2 ∨ page = totalPages - 1 ∨ page = totalPages := by
            omega
          rcases hp with rfl | rfl | rfl <;> simp
      · simp only [if_neg hp3, if_neg hne]
        refine ⟨?_, rfl, ?_, ?_, fun hc => absurd hc h5⟩
        · simp only [pageNums, List.filterMap_cons, List.filterMap_nil]
          simp [List.pairwise_cons]
          omega
        · simp [pageNums]
        · simp

theorem pagination_window_witness :
    (1 ≤ 7 ∧ 7 ≤ 20) ∧
    (List.Pairwise (· < ·) (pageNums (getPageNumbers 7 20)) ∧
      (getPageNumbers 7 20).head? = some (PageEntry.num 1) ∧
      (pageNums (getPageNumbers 7 20)).getLast? = some 20 ∧
      PageEntry.num 7 ∈ getPageNumbers 7 20 ∧
      (20 ≤ 5 →
        pageNums (getPageNumbers 7 20) = List.range' 1 20 ∧
        PageEntry.dots ∉ getPageNumbers 7 20)) :=
  ⟨by decide, pagination_window 7 20 (by decide) (by decide)⟩

-- Ordering lemmas for the read path sort.

theorem lexLe_total (as bs : List Char) : lexLe as bs = true ∨ lexLe bs as = true := by
  induction as generalizing bs with
  | nil => exact Or.inl rfl
  | cons a as ih =>
    cases bs with
    | nil => exact Or.inr rfl
    | cons b bs =>
      by_cases h : a.toNat = b.toNat
      · rcases ih bs with hl | hr
        · exact Or.inl (by simp [lexLe, h, hl])
        · exact Or.inr (by simp [lexLe, h.symm, hr])
      · by_cases hlt : a.toNat < b.toNat
        · exact Or.inl (by simp [lexLe, h, hlt])
        · have hba : ¬ b.toNat = a.toNat := fun e => h e.symm
          have hgt : b.toNat < a.toNat := by omega
          exact Or.inr (by simp [lexLe, hba, hgt])

theorem lexLe_trans (as bs cs : List Char) (h1 : lexLe as bs = true)
    (h2 : lexLe bs cs = true) : lexLe as cs = true := by
  induction as generalizing bs cs with
  | nil => rfl
  | cons a as ih =>
    cases bs with
    | nil => simp [lexLe] at h1
    | cons b bs =>
      cases cs with
      | nil => simp [lexLe] at h2
      | cons c cs =>
        simp only [lexLe] at h1 h2 ⊢
        by_cases hab : a.toNat = b.toNat
        · by_cases hbc : b.toNat = c.toNat
          · rw [if_pos hab] at h1
            rw [if_pos hbc] at h2
            rw [if_pos (hab.trans hbc)]
            exact ih bs cs h1 h2
          · rw [if_pos hab] at h1
            rw [if_neg hbc] at h2
            have hc : b.toNat < c.toNat := by simpa using h2
            rw [if_neg (by omega)]
            simp
            omega
        · by_cases hbc : b.toNat = c.toNat
          · rw [if_neg hab] at h1
            have hc : a.toNat < b.toNat := by simpa using h1
            rw [if_neg (by omega)]
            simp
            omega
          · rw [if_neg hab] at h1
            rw [if_neg hbc] at h2
            have hx : a.toNat < b.toNat := by simpa using h1
            have hy : b.toNat < c.toNat := by simpa using h2
            rw [if_neg (by omega)]
            simp
            omega

theorem rowLE_total (a b : Announcement) : rowLE a b ∨ rowLE b a := by
  unfold rowLE
  rcases Nat.lt_trichotomy a.receivedTime b.receivedTime with h | h | h
  · exact Or.inr (Or.inl h)
  · rcases lexLe_total a.id.data b.id.data with hl | hr
    · exact Or.inl (Or.inr ⟨h, hl⟩)
    · exact Or.inr (Or.inr ⟨h.symm, hr⟩)
  · exact Or.inl (Or.inl h)

theorem rowLE_trans (a b c : Announcement) (h1 : rowLE a b) (h2 : rowLE b c) : rowLE a c := by
  unfold rowLE at h1 h2 ⊢
  rcases h1 with h1 | ⟨h1e, h1l⟩
  · rcases h2 with h2 | ⟨h2e, _⟩
    · exact Or.inl (by omega)
    · exact Or.inl (by omega)
  · rcases h2 with h2 | ⟨h2e, h2l⟩
    · exact Or.inl (by omega)
    · exact Or.inr ⟨by omega, lexLe_trans _ _ _ h1l h2l⟩

theorem mem_insertOrdered (a x : Announcement) (l : List Announcement) :
    x ∈ insertOrdered a l ↔ x = a ∨ x ∈ l := by
  induction l with
  | nil => simp [insertOrdered]
  | cons b bs ih =>
    by_cases h : rowLE a b
    · simp only [insertOrdered, if_pos h, List.mem_cons]
    · simp only [insertOrdered, if_neg h, List.mem_cons, ih]
      tauto

theorem pairwise_insertOrdered (a : Announcement) (l : List Announcement)
    (hl : l.Pairwise rowLE) : (insertOrdered a l).Pairwise rowLE := by
  induction l with
  | nil => simp [insertOrdered]
  | cons b bs ih =>
    rcases List.pairwise_cons.mp hl with ⟨hb, hbs⟩
    by_cases h : rowLE a b
    · simp only [insertOrdered, if_pos h]
      refine List.pairwise_cons.mpr ⟨?_, hl⟩
      intro y hy
      rcases List.mem_cons.mp hy with rfl | hy'
      · exact h
      · exact rowLE_trans a b y h (hb y hy')
    · simp only [insertOrdered, if_neg h]
      refine List.pairwise_cons.mpr ⟨?_, ih hbs⟩
      intro y hy
      rcases (mem_insertOrdered a y bs).mp hy with rfl | hy'
      · rcases rowLE_total y b with h' | h'
        · exact absurd h' h
        · exact h'
      · exact hb y hy'

theorem sortRows_pairwise (l : List Announcement) : (sortRows l).Pairwise rowLE := by
  induction l with
  | nil => simp [sortRows]
  | cons a as ih =>
    exact pairwise_insertOrdered a (sortRows as) ih

theorem mem_sortRows (l : List Announcement) (x : Announcement) :
    x ∈ sortRows l ↔ x ∈ l := by
  induction l with
  | nil => simp [sortRows]
  | cons a as ih =>
    show x ∈ insertOrdered a (sortRows as) ↔ _
    rw [mem_insertOrdered, ih]
    simp [List.mem_cons]

/-- Claim C4: every row of a searched result page matches the search term as
a case-insensitive substring of symbol, company name or headline; the rows
are ordered by receivedTime descending with ties broken by id; and the
returned total counts the full matching set, not just the page. -/
theorem read_page_matches_order_total (st : Store) (companyOf : Announcement → Option String)
    (q : String) (limit offset : Nat) :
    (∀ r ∈ (readAnnouncements st companyOf (some q) limit offset).rows,
      matchesSearch companyOf r q = true) ∧
    (readAnnouncements st companyOf (some q) limit offset).rows.Pairwise rowLE ∧
    (readAnnouncements st companyOf (some q) limit offset).total =
      (st.filter fun r => matchesSearch companyOf r q).length := by
  have hs : List.Sublist
      (((sortRows (st.filter fun r => matchesSearch companyOf r q)).drop offset).take limit)
      (sortRows (st.filter fun r => matchesSearch companyOf r q)) :=
    (List.take_sublist _ _).trans (List.drop_sublist _ _)
  refine ⟨?_, ?_, rfl⟩
  · intro r hr
    simp only [readAnnouncements] at hr
    have h1 : r ∈ sortRows (st.filter fun r => matchesSearch companyOf r q) := hs.subset hr
    have h2 := (mem_sortRows _ r).mp h1
    exact (List.mem_filter.mp h2).2
  · simp only [readAnnouncements]
    exact (sortRows_pairwise _).sublist hs

theorem read_page_matches_order_total_witness :
    (sampleAnn ∈ (readAnnouncements [sampleAnn] (fun _ => none) (some "reli") 10 0).rows ∧
      matchesSearch (fun _ => none) sampleAnn "reli" = true) ∧
    (readAnnouncements [sampleAnn] (fun _ => none) (some "reli") 10 0).rows.Pairwise rowLE ∧
    (readAnnouncements [sampleAnn] (fun _ => none) (some "reli") 10 0).total =
      ([sampleAnn].filter fun r => matchesSearch (fun _ => none) r "reli").length :=
  ⟨⟨by decide,
    (read_page_matches_order_total [sampleAnn] (fun _ => none) "reli" 10 0).1 sampleAnn
      (by decide)⟩,
   (read_page_matches_order_total [sampleAnn] (fun _ => none) "reli" 10 0).2.1,
   (read_page_matches_order_total [sampleAnn] (fun _ => none) "reli" 10 0).2.2⟩

/-- Claim C10: the submit handler invokes the access-request call exactly
when no submission is in flight, the trimmed name, mobile and reason are
non-empty, and the trimmed email is empty or matches the email pattern; the
sent payload carries trimmed values with null for blank email and company —
a blank company never blocks submission. -/
theorem contact_submit_guard (loading : Bool) (fd : ContactFormData) :
    ((handleSubmit loading fd).isSome = true ↔
      (loading = false ∧ trimStr fd.name ≠ "" ∧ trimStr fd.mobile ≠ "" ∧
        trimStr fd.reason ≠ "" ∧
        (trimStr fd.email = "" ∨ emailRegexAccepts (trimStr fd.email) = true))) ∧
    (∀ p, handleSubmit loading fd = some p →
      p.name = trimStr fd.name ∧ p.mobile = trimStr fd.mobile ∧ p.reason = trimStr fd.reason ∧
      p.email = (if trimStr fd.email = "" then none else some (trimStr fd.email)) ∧
      p.company = (if trimStr fd.company = "" then none else some (trimStr fd.company))) := by
  constructor
  · unfold handleSubmit
    cases loading with
    | true => simp
    | false =>
      by_cases h1 : trimStr fd.name = "" <;>
        by_cases h2 : trimStr fd.mobile = "" <;>
          by_cases h3 : trimStr fd.reason = "" <;>
            by_cases h4 : trimStr fd.email = "" <;>
              by_cases h5 : emailRegexAccepts (trimStr fd.email) = true <;>
                simp [h1, h2, h3, h4, h5]
  · intro p hp
    unfold handleSubmit at hp
    cases loading with
    | true => simp at hp
    | false =>
      by_cases h1 : trimStr fd.name = "" <;>
        by_cases h2 : trimStr fd.mobile = "" <;>
          by_cases h3 : trimStr fd.reason = "" <;>
            by_cases h4 : trimStr fd.email = "" <;>
              by_cases h5 : emailRegexAccepts (trimStr fd.email) = true <;>
                simp [h1, h2, h3, h4, h5] at hp <;>
                  simp [← hp, h4]

theorem contact_submit_guard_witness :
    (handleSubmit false sampleForm = some samplePayload) ∧
    ((handleSubmit false sampleForm).isSome = true ↔
      (false = false ∧ trimStr sampleForm.name ≠ "" ∧ trimStr sampleForm.mobile ≠ "" ∧
        trimStr sampleForm.reason ≠ "" ∧
        (trimStr sampleForm.email = "" ∨ emailRegexAccepts (trimStr sampleForm.email) = true))) ∧
    (samplePayload.name = trimStr sampleForm.name ∧
      samplePayload.mobile = trimStr sampleForm.mobile ∧
      samplePayload.reason = trimStr sampleForm.reason ∧
      samplePayload.email =
        (if trimStr sampleForm.email = "" then none else some (trimStr sampleForm.email)) ∧
      samplePayload.company =
        (if trimStr sampleForm.company = "" then none else some (trimStr sampleForm.company))) :=
  ⟨by decide, (contact_submit_guard false sampleForm).1,
   (contact_submit_guard false sampleForm).2 samplePayload (by decide)⟩
